import Mathlib

/-!
Verification development for the sonec collection pipeline.

This file gives a shallow embedding of the parts of the sonec code base that
the checked properties are about:

* the Bluesky provider metric normalization (`_as_int`, `_normalize_post_list`
  and the `asdict` persistence of the canonical `Metrics` dataclass);
* the Bluesky provider login and `configure` error handling;
* the page-limit computation of `BlueskyProvider.fetch_since`;
* the keyset token utilities (modelled from the specification, since
  `sonec/utils/pagination.py` is not part of the sources at hand);
* the `collect` paging loop of `sonec/api.py` with its persistence counters,
  cursor tracking and job finalization;
* the keyset-paginated `query` engine over the canonical post table.

Timestamps are modelled as integers (seconds in UTC), JSON documents as
association lists, database tables as lists of rows, and provider HTTP
interaction as explicit response scripts passed to the embedded functions.
-/

set_option maxHeartbeats 1000000

namespace Sonec

/-! ### Bluesky metric normalization (providers/bluesky.py) -/

/-- Dynamic (Python-like) payload value reaching `_as_int`.  `pynone` models an
absent key (`p.get` returns `None`), `pyint` a JSON integer, `numStr` a string
accepted by `int()`, and `badVal` any value on which `int()` raises. -/
inductive PyVal
  | pynone
  | pyint (n : Int)
  | numStr (n : Int)
  | badVal
deriving DecidableEq

/-- `_as_int` from providers/bluesky.py: `None` maps to `None`, otherwise
`int(v)` is attempted and any exception yields `None`.  Note that `int()` does
not clamp negative values. -/
def as_int : PyVal → Option Int
  | PyVal.pynone => none
  | PyVal.pyint n => some n
  | PyVal.numStr n => some n
  | PyVal.badVal => none

/-- JSON field value stored in the metrics document. -/
inductive JField
  | null
  | num (n : Int)
deriving DecidableEq

/-- The canonical `Metrics` dataclass of providers/base.py.  The `score` field
is a float in the source and `extra` a mapping; both are always `None` in the
Bluesky provider, so an integer placeholder type is enough here. -/
structure Metrics where
  like_count : Option Int := none
  reply_count : Option Int := none
  repost_count : Option Int := none
  quote_count : Option Int := none
  view_count : Option Int := none
  bookmark_count : Option Int := none
  score : Option Int := none
  extra : Option Int := none
deriving DecidableEq

/-- The three counters of a Bluesky post payload, as fetched via `p.get`. -/
structure BskyCounts where
  likeCount : PyVal
  replyCount : PyVal
  repostCount : PyVal
deriving DecidableEq

/-- Metrics construction in `BlueskyProvider._normalize_post_list`. -/
def normalizeMetrics (p : BskyCounts) : Metrics :=
  { like_count := as_int p.likeCount
    reply_count := as_int p.replyCount
    repost_count := as_int p.repostCount }

/-- `None` becomes JSON `null`, an integer stays an integer. -/
def jOf : Option Int → JField
  | none => JField.null
  | some n => JField.num n

/-- `dataclasses.asdict` applied to a `Metrics` instance: every field of the
dataclass appears as a key of the resulting document, absent counters as
explicit `null` values. -/
def asdictMetrics (m : Metrics) : List (String × JField) :=
  [("like_count", jOf m.like_count), ("reply_count", jOf m.reply_count),
   ("repost_count", jOf m.repost_count), ("quote_count", jOf m.quote_count),
   ("view_count", jOf m.view_count), ("bookmark_count", jOf m.bookmark_count),
   ("score", jOf m.score), ("extra", jOf m.extra)]

/-- The metrics document persisted by `collect` for a Bluesky post:
`metrics_payload = asdict(metrics_obj)` (api.py) applied to the metrics built
by `_normalize_post_list`. -/
def storedMetrics (p : BskyCounts) : List (String × JField) :=
  asdictMetrics (normalizeMetrics p)

/-! ### Bluesky login and configure (providers/bluesky.py) -/

/-- Python exception values relevant to `_login`. -/
inductive PyError
  | invalidQuery (msg : String)
  | httpStatusError (code : Nat)
  | transportError
deriving DecidableEq

/-- `str(exc)` for the exceptions above (the precise text of the httpx
messages is irrelevant to the checked properties). -/
def pyErrStr : PyError → String
  | PyError.invalidQuery m => m
  | PyError.httpStatusError c => "HTTP status error " ++ toString c
  | PyError.transportError => "network failure"

/-- `BlueskyProvider._login`: the `createSession` response is either a
transport failure (`none`) or a status code with an optional `accessJwt`
token.  Status 401 raises `InvalidQuery`, any other status at least 400
raises via `raise_for_status`, a missing token raises `InvalidQuery`. -/
def loginAttempt : Option (Nat × Option String) → Except PyError String
  | none => Except.error PyError.transportError
  | some (status, tok) =>
    if status = 401 then
      Except.error (PyError.invalidQuery
        ("Invalid Bluesky credentials (use an app password, not your login password)."))
    else if 400 ≤ status then
      Except.error (PyError.httpStatusError status)
    else
      match tok with
      | none => Except.error (PyError.invalidQuery
          ("Authentication succeeded but no access token was returned."))
      | some t => Except.ok t

/-- The session returned by `BlueskyProvider.configure`. -/
structure SessionModel where
  provider : String
  auth_state : String
  warnings : List String
  authHeader : Option String
  baseUrl : String
deriving DecidableEq

/-- `BlueskyProvider.configure`: when credentials are present the login is
attempted inside `try/except Exception`, so every login failure is demoted to
an `authentication_failed` warning and the provider stays anonymous; only a
successful login switches to the authenticated base URL.  The function never
raises (hence always returns `Except.ok`). -/
def configureBluesky (creds : Option (String × String))
    (loginResp : Option (Nat × Option String)) : Except PyError SessionModel :=
  match creds with
  | none =>
    Except.ok { provider := "bluesky", auth_state := "anonymous", warnings := [],
                authHeader := none, baseUrl := "https://public.api.bsky.app" }
  | some _ =>
    match loginAttempt loginResp with
    | Except.ok tok =>
      Except.ok { provider := "bluesky", auth_state := "authenticated", warnings := [],
                  authHeader := some ("Bearer " ++ tok), baseUrl := "https://api.bsky.app" }
    | Except.error e =>
      Except.ok { provider := "bluesky", auth_state := "anonymous",
                  warnings := ["authentication_failed: " ++ pyErrStr e],
                  authHeader := none, baseUrl := "https://public.api.bsky.app" }

/-! ### Page limit of fetch_since (providers/bluesky.py) -/

/-- The page size sent to the remote endpoint by `BlueskyProvider.fetch_since`:
`min(int(limit or 10), 100)`.  A zero (falsy) limit falls back to the default
10; there is no lower clamp. -/
def requestedPageLimit (limit : Int) : Int :=
  min (if limit = 0 then 10 else limit) 100

/-! ### Keyset tokens

Modelled from the spec: `sonec/utils/pagination.py` (the definitions of
`encode_after_key` and `decode_after_key` imported by api.py) is not among the
sources.  Section 4.1 of the specification requires an opaque, URL-safe,
deterministic, round-trippable string encoding of a `(created_at, id)` pair,
with decoding failures reported as `InvalidToken`.  The concrete byte format
below (sign character, binary digits, a dash separator) is a faithful
realization of those requirements; nothing else in this file depends on the
exact format. -/

/-- Binary digits of a natural number, least significant first. -/
def natToBits (n : Nat) : List Char :=
  if h : n = 0 then []
  else (if n % 2 = 1 then '1' else '0') :: natToBits (n / 2)
termination_by n
decreasing_by exact Nat.div_lt_self (Nat.pos_of_ne_zero h) (by norm_num)

/-- Value of a least-significant-first binary digit list. -/
def bitsToNat : List Char → Nat
  | [] => 0
  | c :: t => (if c = '1' then 1 else 0) + 2 * bitsToNat t

/-- Sign marker of the timestamp component. -/
def signChar (t : Int) : Char := if t < 0 then 'n' else 'p'

/-- Modelled from the spec: `encode_after_key(ts, id)` produces an opaque
URL-safe token for the `(created_at, id)` keyset pair. -/
def encode_after_key (t : Int) (i : Nat) : String :=
  String.mk (signChar t :: (natToBits t.natAbs ++ ('-' :: natToBits i)))

/-- Split a character list at the first dash. -/
def splitDash : List Char → Option (List Char × List Char)
  | [] => none
  | c :: rest =>
    if c = '-' then some ([], rest)
    else match splitDash rest with
      | none => none
      | some (a, b) => some (c :: a, b)

/-- Binary digit test. -/
def isBit (c : Char) : Bool := c = '0' || c = '1'

/-- The `InvalidToken` error of the token utilities. -/
inductive TokenError
  | invalidToken
deriving DecidableEq

/-- Decoder worker on the character list of the token. -/
def decodeChars : List Char → Except TokenError (Int × Nat)
  | [] => Except.error TokenError.invalidToken
  | sc :: rest =>
    if sc = 'p' ∨ sc = 'n' then
      match splitDash rest with
      | some (a, b) =>
        if a.all isBit && b.all isBit then
          Except.ok ((if sc = 'n' then -(bitsToNat a : Int) else (bitsToNat a : Int)),
                     bitsToNat b)
        else Except.error TokenError.invalidToken
      | none => Except.error TokenError.invalidToken
    else Except.error TokenError.invalidToken

/-- Modelled from the spec: `decode_after_key(token)` recovers the pair or
fails with `InvalidToken` on any malformed input. -/
def decode_after_key (s : String) : Except TokenError (Int × Nat) :=
  decodeChars s.toList

/-- URL-safe (RFC 3986 unreserved) characters. -/
def urlSafeChar (c : Char) : Bool :=
  c.isAlphanum || c = '-' || c = '_' || c = '.' || c = '~'

/-! ### The collect paging loop (api.py)

The provider is modelled as a response script: the k-th `fetch_since` call of
a run either raises a provider error or returns a batch.  The post table is
modelled by the list of `(provider, external_id)` keys it contains (a single
fixed provider per run, so plain external ids suffice), which is all the loop
consults.  Author upserts always succeed in the source (the `author_id is
None` branch is unreachable after the refresh query), so they are not
modelled. -/

/-- Error categories a provider call can raise (providers/base.py). -/
inductive PErrK
  | rateLimited
  | temporaryNetworkError
  | invalidQueryE
  | providerUnavailable
  | authError
deriving DecidableEq

/-- A normalized item as far as the collect loop inspects it. -/
structure PItem where
  external_id : String
  created_at : Int
deriving DecidableEq

/-- A `FetchBatch` as far as the collect loop inspects it. -/
structure PBatch where
  items : List PItem
  next_cursor : Option String
  reached_until : Bool
deriving DecidableEq

/-- Python truthiness of `batch.next_cursor` (`None` and the empty string are
falsy). -/
def cursorTruthy : Option String → Bool
  | none => false
  | some s => !(s = "")

/-- Local temporal window test of the persistence step: an item is skipped
when `created_at < since_dt` or `created_at > until_dt`. -/
def inWindow (sinceDt untilDt : Option Int) (it : PItem) : Bool :=
  (match sinceDt with
   | some sd => !(it.created_at < sd : Bool)
   | none => true)
  &&
  (match untilDt with
   | some ud => !(ud < it.created_at : Bool)
   | none => true)

/-- The items of a batch queued for bulk insert: inside the window and not in
the `existing_posts` snapshot taken at the start of the batch. -/
def queuedItems (sinceDt untilDt : Option Int) (snapshot : List String)
    (items : List PItem) : List PItem :=
  items.filter (fun it => inWindow sinceDt untilDt it && !(snapshot.contains it.external_id))

/-- Conflict increments of a batch: items inside the window whose external id
is already present in the snapshot. -/
def conflictCount (sinceDt untilDt : Option Int) (snapshot : List String)
    (items : List PItem) : Nat :=
  (items.filter (fun it => inWindow sinceDt untilDt it && snapshot.contains it.external_id)).length

/-- One persistence transaction of the loop: returns the new table contents,
the number of rows handed to `bulk_create` (added to `total_inserted`) and the
conflict increment. -/
def processBatch (sinceDt untilDt : Option Int) (store : List String)
    (items : List PItem) : List String × Nat × Nat :=
  let queued := queuedItems sinceDt untilDt store items
  (store ++ queued.map PItem.external_id, queued.length,
   conflictCount sinceDt untilDt store items)

/-- `min((it.created_at for it in batch.items), default=None)`. -/
def minCreated : List PItem → Option Int
  | [] => none
  | it :: t =>
    match minCreated t with
    | none => some it.created_at
    | some m => some (min it.created_at m)

/-- The boundary update of one iteration: the flag is set when the oldest item
of the batch lies before `since_dt`, and `batch.reached_until` is honored. -/
def ruUpdate (sinceDt : Option Int) (flag : Bool) (batch : PBatch) : Bool :=
  let fromSince :=
    match sinceDt, minCreated batch.items with
    | some sd, some o => (o < sd : Bool)
    | _, _ => false
  (flag || fromSince) || batch.reached_until

/-- Mutable state of the paging loop, plus the number of `fetch_since` calls
made so far. -/
structure LoopState where
  insertedTotal : Nat
  conflictsTotal : Nat
  store : List String
  cursorTok : Option String
  lastCursor : Option String
  reachedUntil : Bool
  calls : Nat
deriving DecidableEq

/-- State update of one successful iteration (persistence, cursor advance,
boundary flag), with `calls` already accounting for the fetch. -/
def stepState (sinceDt untilDt : Option Int) (st : LoopState) (batch : PBatch) : LoopState :=
  let pr := processBatch sinceDt untilDt st.store batch.items
  let truthy := cursorTruthy batch.next_cursor
  { insertedTotal := st.insertedTotal + pr.2.1
    conflictsTotal := st.conflictsTotal + pr.2.2
    store := pr.1
    cursorTok := if truthy then batch.next_cursor else none
    lastCursor := if truthy then batch.next_cursor else st.lastCursor
    reachedUntil := ruUpdate sinceDt st.reachedUntil batch
    calls := st.calls }

/-- The `while remaining > 0` loop of `collect`.  On a provider error the
current state escapes together with the exception.  The `fuel` argument only
drives the structural recursion; since every iteration that continues strictly
decreases `remaining` and keeps `remaining ≤ fuel`, the zero-fuel branch is
unreachable for the initial choice `fuel = remaining`. -/
def collectLoop (f : Nat → Except PErrK PBatch) (sinceDt untilDt : Option Int) :
    Nat → Nat → LoopState → Except (PErrK × LoopState) LoopState
  | fuel, remaining, st =>
    if remaining = 0 then Except.ok st
    else
      match fuel with
      | 0 => Except.ok st
      | fuel' + 1 =>
        match f st.calls with
        | Except.error e => Except.error (e, { st with calls := st.calls + 1 })
        | Except.ok batch =>
          if (stepState sinceDt untilDt { st with calls := st.calls + 1 } batch).cursorTok = none
              ∨ batch.items = [] ∨ remaining - batch.items.length = 0 then
            Except.ok (stepState sinceDt untilDt { st with calls := st.calls + 1 } batch)
          else
            collectLoop f sinceDt untilDt fuel' (remaining - batch.items.length)
              (stepState sinceDt untilDt { st with calls := st.calls + 1 } batch)

/-- The JSON-serializable report returned by a successful `collect`. -/
structure Report where
  inserted : Nat
  conflicts : Nat
  reached_until : Bool
  last_cursor : Option String
  warnings : List String
deriving DecidableEq

/-- The FetchJob row fields updated at finalization. -/
structure JobRec where
  status : String
  finishedSet : Bool
deriving DecidableEq

/-- Outcome of one embedded `collect` run: the finalized job row, the post
table, the cursor row after the run (`none` when no row exists;
`some position` with `position = (position.cursor)` otherwise) and either the
report or the re-raised provider error. -/
structure CollectOutcome where
  fetchCalls : Nat
  job : JobRec
  store : List String
  cursorRow : Option (Option String)
  result : Except PErrK Report

/-- `remaining = limit if limit is not None else 10_000_000`. -/
def remainingInit : Option Nat → Nat
  | some n => n
  | none => 10000000

/-- Loop state at the top of the paging loop. -/
def initState (store0 : List String) : LoopState :=
  { insertedTotal := 0, conflictsTotal := 0, store := store0, cursorTok := none,
    lastCursor := none, reachedUntil := false, calls := 0 }

/-- The embedded `collect` run of api.py: run the paging loop, then either
persist the cursor and close the job as succeeded with an empty warnings
list, or close the job as failed and re-raise.  `sessionWarnings` carries the
warnings of the provider session returned by `configure`; the source never
propagates them into the report. -/
def collectRun (f : Nat → Except PErrK PBatch) (sinceDt untilDt : Option Int)
    (limitOpt : Option Nat) (_sessionWarnings : List String)
    (store0 : List String) (prevCursorRow : Option (Option String)) : CollectOutcome :=
  match collectLoop f sinceDt untilDt (remainingInit limitOpt) (remainingInit limitOpt)
      (initState store0) with
  | Except.ok st =>
    { fetchCalls := st.calls
      job := { status := "succeeded", finishedSet := true }
      store := st.store
      cursorRow := some
        (match st.lastCursor with
         | some c => some c
         | none =>
           match prevCursorRow with
           | some p => p
           | none => none)
      result := Except.ok
        { inserted := st.insertedTotal, conflicts := st.conflictsTotal,
          reached_until := st.reachedUntil, last_cursor := st.lastCursor,
          warnings := [] } }
  | Except.error (e, st) =>
    { fetchCalls := st.calls
      job := { status := "failed", finishedSet := true }
      store := st.store
      cursorRow := prevCursorRow
      result := Except.error e }

/-! Reference quantities of a run, defined directly from the response script:
in-window item counts, the accumulated post table, and the last truthy cursor
over the first `n` calls. -/

/-- Number of items of a batch inside the temporal window. -/
def iwCount (sinceDt untilDt : Option Int) (items : List PItem) : Nat :=
  (items.filter (inWindow sinceDt untilDt)).length

/-- Total in-window items over the first `n` calls of the script (failed
calls contribute nothing). -/
def iwSum (f : Nat → Except PErrK PBatch) (sinceDt untilDt : Option Int) : Nat → Nat
  | 0 => 0
  | n + 1 =>
    iwSum f sinceDt untilDt n +
      (match f n with
       | Except.ok b => iwCount sinceDt untilDt b.items
       | Except.error _ => 0)

/-- Post table after the first `n` calls of the script have been persisted. -/
def storeAcc (f : Nat → Except PErrK PBatch) (sinceDt untilDt : Option Int)
    (store0 : List String) : Nat → List String
  | 0 => store0
  | n + 1 =>
    match f n with
    | Except.ok b => (processBatch sinceDt untilDt (storeAcc f sinceDt untilDt store0 n) b.items).1
    | Except.error _ => storeAcc f sinceDt untilDt store0 n

/-- The last truthy `next_cursor` among the first `n` calls of the script. -/
def lastSeen (f : Nat → Except PErrK PBatch) : Nat → Option String
  | 0 => none
  | n + 1 =>
    match f n with
    | Except.ok b => if cursorTruthy b.next_cursor then b.next_cursor else lastSeen f n
    | Except.error _ => lastSeen f n

/-- The k-th call of the script succeeds. -/
def okAt (f : Nat → Except PErrK PBatch) (k : Nat) : Prop :=
  ∃ b, f k = Except.ok b

/-- Loop invariant tying a state to the script quantities at index `calls`. -/
def loopInv (f : Nat → Except PErrK PBatch) (sinceDt untilDt : Option Int)
    (store0 : List String) (st : LoopState) : Prop :=
  st.insertedTotal + st.conflictsTotal = iwSum f sinceDt untilDt st.calls
  ∧ st.store = storeAcc f sinceDt untilDt store0 st.calls
  ∧ st.lastCursor = lastSeen f st.calls

/-! ### The keyset-paginated query engine (api.py, entity "posts")

A post row carries the columns the query path touches.  The relational
semantics of the ORM chain is embedded directly: filtering the table,
sorting by `(created_at DESC, id DESC)`, applying the keyset predicate,
slicing `limit + 1` rows.  Keyset tokens appear as raw `(created_at, id)`
pairs here; the string codec is handled separately by the token utilities. -/

/-- Canonical post row (the columns used by `query`). -/
structure PostRow where
  id : Nat
  provider : String
  external_id : String
  author_id : Nat
  author_handle : Option String
  author_external_id : String
  created_at : Int
  text : String
  lang : Option String
deriving DecidableEq

/-- The keyset key of a row. -/
def rkey (r : PostRow) : Int × Nat := (r.created_at, r.id)

/-- Strict keyset order on keys: `a` is strictly below `b` in the
`(created_at DESC, id DESC)` scan when `a.1 < b.1` or the timestamps tie and
`a.2 < b.2`. -/
def kLT (a b : Int × Nat) : Prop :=
  a.1 < b.1 ∨ (a.1 = b.1 ∧ a.2 < b.2)

instance : DecidableRel kLT := fun a b =>
  show Decidable (a.1 < b.1 ∨ (a.1 = b.1 ∧ a.2 < b.2)) from inferInstance

/-- Row `x` precedes row `y` in descending keyset order (non-strict). -/
def byKeyDesc (x y : PostRow) : Prop :=
  kLT (rkey y) (rkey x) ∨ rkey y = rkey x

instance : DecidableRel byKeyDesc := fun x y =>
  show Decidable (kLT (rkey y) (rkey x) ∨ rkey y = rkey x) from inferInstance

instance : IsTotal PostRow byKeyDesc := by
  constructor
  intro x y
  rcases x with ⟨xi, _, _, _, _, _, xc, _, _⟩
  rcases y with ⟨yi, _, _, _, _, _, yc, _, _⟩
  simp only [byKeyDesc, kLT, rkey, Prod.mk.injEq]
  omega

instance : IsTrans PostRow byKeyDesc := by
  constructor
  intro x y z
  rcases x with ⟨xi, _, _, _, _, _, xc, _, _⟩
  rcases y with ⟨yi, _, _, _, _, _, yc, _, _⟩
  rcases z with ⟨zi, _, _, _, _, _, zc, _, _⟩
  simp only [byKeyDesc, kLT, rkey, Prod.mk.injEq]
  omega

/-- Row `x` strictly precedes row `y` in the descending scan. -/
def rowGT (x y : PostRow) : Prop := kLT (rkey y) (rkey x)

/-- Nonempty all-digit string test (`str.isdigit`). -/
def isDigits (s : String) : Bool :=
  !(s.toList = []) && s.toList.all Char.isDigit

/-- `int(author)` for an all-digit author selector. -/
def strToNatV (s : String) : Nat :=
  s.toList.foldl (fun acc c => 10 * acc + (c.toNat - Char.toNat '0')) 0

/-- Needle occurs at the head of the haystack. -/
def leadMatch : List Char → List Char → Bool
  | [], _ => true
  | _ :: _, [] => false
  | a :: as, b :: bs => a = b && leadMatch as bs

/-- Needle occurs contiguously somewhere in the haystack. -/
def hasSegment : List Char → List Char → Bool
  | needle, [] => needle = []
  | needle, c :: t => leadMatch needle (c :: t) || hasSegment needle t

/-- Case-insensitive substring containment (`text__icontains`). -/
def icontains (hay needle : String) : Bool :=
  hasSegment (needle.toList.map Char.toLower) (hay.toList.map Char.toLower)

/-- The optional filters of `query("posts", ...)`. -/
structure PostFilters where
  provider : Option String
  since_utc : Option Int
  until_utc : Option Int
  author : Option String
  contains : Option String

/-- The author selector of `query`: a leading `@` matches the canonical
handle; otherwise the external id matches, or, for an all-digit selector,
the integer author id. -/
def authorMatches (a : String) (r : PostRow) : Bool :=
  if a.startsWith "@" then r.author_handle = some a
  else r.author_external_id = a || (isDigits a && r.author_id = strToNatV a)

/-- Conjunction of the requested filters on one row. -/
def matchesFilters (fl : PostFilters) (r : PostRow) : Bool :=
  (match fl.provider with
   | some p => r.provider = p
   | none => true)
  && (match fl.since_utc with
      | some sd => !(r.created_at < sd : Bool)
      | none => true)
  && (match fl.until_utc with
      | some ud => !(ud < r.created_at : Bool)
      | none => true)
  && (match fl.author with
      | some a => authorMatches a r
      | none => true)
  && (match fl.contains with
      | some c => icontains r.text c
      | none => true)

/-- The filtered table in `(created_at DESC, id DESC)` order: the queryset
before the keyset predicate and the slice are applied. -/
def postsQuerySorted (store : List PostRow) (fl : PostFilters) : List PostRow :=
  List.insertionSort byKeyDesc (store.filter (matchesFilters fl))

/-- The queryset after the keyset predicate of a decoded `after_key`:
`created_at < ts OR (created_at == ts AND id < id)`. -/
def filterAt (base : List PostRow) : Option (Int × Nat) → List PostRow
  | none => base
  | some k => base.filter (fun r => decide (kLT (rkey r) k))

/-- One `query` page: fetch `limit + 1` rows (`qs[: limit + 1]`) past the
keyset position, emit the first `limit` of them (`rows[:limit]`), and produce
the next token from the last emitted row iff the extra row existed
(`len(rows) > limit`); an empty page yields no token. -/
def pageOf (base : List PostRow) (limit : Nat) (ak : Option (Int × Nat)) :
    List PostRow × Option (Int × Nat) :=
  match (((filterAt base ak).take (limit + 1)).take limit).getLast? with
  | none => (((filterAt base ak).take (limit + 1)).take limit, none)
  | some last =>
    (((filterAt base ak).take (limit + 1)).take limit,
     if decide (limit < ((filterAt base ak).take (limit + 1)).length) then some (rkey last)
     else none)

/-- Chaining `query` pages through `next_after_key`, starting from `ak`.  The
fuel argument only bounds the number of pages; `base.length` pages always
suffice. -/
def chainQuery (base : List PostRow) (limit : Nat) : Option (Int × Nat) → Nat → List PostRow
  | _, 0 => []
  | ak, fuel + 1 =>
    let pr := pageOf base limit ak
    match pr.2 with
    | none => pr.1
    | some k => pr.1 ++ chainQuery base limit (some k) fuel

/-! ### Concrete runs used to instantiate the theorems below -/

/-- Two-page author-feed script: a first page whose single item lies before
the lower time bound used with it, with a live cursor; then an exhausted
page. -/
def scriptOldFirstPage : Nat → Except PErrK PBatch := fun k =>
  if k = 0 then
    Except.ok { items := [{ external_id := "p1", created_at := 0 }],
                next_cursor := some "c", reached_until := false }
  else
    Except.ok { items := [], next_cursor := none, reached_until := false }

/-- One-page script whose first page already has no cursor. -/
def scriptNoCursor : Nat → Except PErrK PBatch := fun _ =>
  Except.ok { items := [{ external_id := "q1", created_at := 7 }],
              next_cursor := none, reached_until := false }

/-- Two-page script with an intra-batch duplicate, an out-of-window item and
a cross-page duplicate. -/
def scriptDupes : Nat → Except PErrK PBatch := fun k =>
  if k = 0 then
    Except.ok { items := [{ external_id := "a", created_at := 10 },
                          { external_id := "b", created_at := 0 },
                          { external_id := "a", created_at := 10 }],
                next_cursor := some "c1", reached_until := false }
  else
    Except.ok { items := [{ external_id := "a", created_at := 10 }],
                next_cursor := none, reached_until := false }

/-- Report of `collectRun scriptDupes (some 5) none (some 10) [] [] none`. -/
def reportDupes : Report :=
  { inserted := 2, conflicts := 1, reached_until := true,
    last_cursor := some "c1", warnings := [] }

/-- Script whose second call raises `RateLimited`. -/
def scriptFailsSecond : Nat → Except PErrK PBatch := fun k =>
  if k = 0 then
    Except.ok { items := [{ external_id := "x", created_at := 3 }],
                next_cursor := some "cc", reached_until := false }
  else
    Except.error PErrK.rateLimited

/-- Script returning an empty-string (truthy-false but non-null) cursor. -/
def scriptEmptyCursor : Nat → Except PErrK PBatch := fun _ =>
  Except.ok { items := [{ external_id := "z", created_at := 0 }],
              next_cursor := some "", reached_until := false }

/-- Sample post rows and filters for the pagination theorems. -/
def rowOne : PostRow :=
  { id := 1, provider := "bluesky", external_id := "at://p/1", author_id := 1,
    author_handle := some "@a", author_external_id := "did:a", created_at := 10,
    text := "hello", lang := none }

/-- Second sample row with an older timestamp. -/
def rowTwo : PostRow :=
  { id := 2, provider := "bluesky", external_id := "at://p/2", author_id := 1,
    author_handle := some "@a", author_external_id := "did:a", created_at := 5,
    text := "world", lang := none }

/-- Sample table (deliberately unsorted). -/
def sampleStore : List PostRow := [rowTwo, rowOne]

/-- Empty filter set. -/
def noFilters : PostFilters :=
  { provider := none, since_utc := none, until_utc := none, author := none, contains := none }

/-! ## Theorems -/

/-! ### Keyset token utilities (claim C5) -/

theorem bitsToNat_natToBits : ∀ n : Nat, bitsToNat (natToBits n) = n := by
  intro n
  induction n using Nat.strong_induction_on with
  | _ n ih =>
    rw [natToBits]
    split
    · rename_i h
      simp [bitsToNat, h]
    · rename_i h
      have hd := Nat.div_lt_self (Nat.pos_of_ne_zero h) (show 1 < 2 by norm_num)
      rcases Nat.mod_two_eq_zero_or_one n with h2 | h2
      · rw [if_neg (by omega : ¬ n % 2 = 1)]
        simp only [bitsToNat, ih (n / 2) hd]
        rw [if_neg (by decide : ¬ ('0' : Char) = '1')]
        omega
      · rw [if_pos h2]
        simp only [bitsToNat, ih (n / 2) hd, if_true]
        omega

theorem natToBits_mem (n : Nat) : ∀ c ∈ natToBits n, c = '0' ∨ c = '1' := by
  induction n using Nat.strong_induction_on with
  | _ n ih =>
    intro c hc
    rw [natToBits] at hc
    split at hc
    · simp at hc
    · rename_i h
      rcases List.mem_cons.mp hc with h1 | h1
      · subst h1
        split
        · exact Or.inr rfl
        · exact Or.inl rfl
      · exact ih (n / 2) (Nat.div_lt_self (Nat.pos_of_ne_zero h) (by norm_num)) c h1

theorem natToBits_all_isBit (n : Nat) : (natToBits n).all isBit = true := by
  rw [List.all_eq_true]
  intro c hc
  rcases natToBits_mem n c hc with h | h <;> subst h <;> decide

theorem splitDash_append :
    ∀ (a b : List Char), (∀ c ∈ a, ¬ c = '-') → splitDash (a ++ '-' :: b) = some (a, b) := by
  intro a
  induction a with
  | nil =>
    intro b _
    simp [splitDash]
  | cons c t ih =>
    intro b h
    have hc : ¬ c = '-' := h c (List.mem_cons_self c t)
    simp only [List.cons_append, splitDash, List.append_eq]
    rw [if_neg hc, ih b (fun x hx => h x (List.mem_cons_of_mem c hx))]

theorem natToBits_no_dash (n : Nat) : ∀ c ∈ natToBits n, ¬ c = '-' := by
  intro c hc
  rcases natToBits_mem n c hc with h | h <;> subst h <;> decide

/-- C5: for every valid `(timestamp, id)` pair the decode of the encode gives
the pair back; the produced token is URL-safe; decoding is total with
`InvalidToken` as its only failure, and concrete malformed tokens (empty, bad
sign marker, missing separator) fail with `InvalidToken`.  (The pagination
module is not among the sources; the codec is modelled from the spec.) -/
theorem c5_after_key_roundtrip :
    (∀ (t : Int) (i : Nat), decode_after_key (encode_after_key t i) = Except.ok (t, i))
    ∧ (∀ (t : Int) (i : Nat), (encode_after_key t i).toList.all urlSafeChar = true)
    ∧ (∀ s : String, decode_after_key s = Except.error TokenError.invalidToken
        ∨ ∃ t i, decode_after_key s = Except.ok (t, i))
    ∧ decode_after_key "" = Except.error TokenError.invalidToken
    ∧ decode_after_key "zz" = Except.error TokenError.invalidToken
    ∧ decode_after_key "p01" = Except.error TokenError.invalidToken := by
  refine ⟨?_, ?_, ?_, rfl, rfl, rfl⟩
  · intro t i
    show decodeChars (signChar t :: (natToBits t.natAbs ++ ('-' :: natToBits i))) = _
    by_cases ht : t < 0
    · have hs : signChar t = 'n' := if_pos ht
      rw [hs]
      simp only [decodeChars]
      rw [if_pos (Or.inr trivial)]
      rw [splitDash_append _ _ (natToBits_no_dash t.natAbs)]
      simp only [natToBits_all_isBit, Bool.and_self, eq_self_iff_true, if_true]
      rw [bitsToNat_natToBits, bitsToNat_natToBits]
      have hv : ((t.natAbs : Int)) = -t := by omega
      simp [hv]
    · have hs : signChar t = 'p' := if_neg ht
      rw [hs]
      simp only [decodeChars]
      rw [if_pos (Or.inl trivial)]
      rw [splitDash_append _ _ (natToBits_no_dash t.natAbs)]
      simp only [natToBits_all_isBit, Bool.and_self, eq_self_iff_true, if_true]
      rw [if_neg (by decide : ¬ ('p' : Char) = 'n')]
      rw [bitsToNat_natToBits, bitsToNat_natToBits]
      have hv : ((t.natAbs : Int)) = t := by omega
      simp [hv]
  · intro t i
    show (signChar t :: (natToBits t.natAbs ++ ('-' :: natToBits i))).all urlSafeChar = true
    rw [List.all_eq_true]
    intro c hc
    rcases List.mem_cons.mp hc with h1 | h1
    · subst h1
      unfold signChar
      split <;> decide
    · rcases List.mem_append.mp h1 with h2 | h2
      · rcases natToBits_mem _ c h2 with h | h <;> subst h <;> decide
      · rcases List.mem_cons.mp h2 with h3 | h3
        · subst h3; decide
        · rcases natToBits_mem _ c h3 with h | h <;> subst h <;> decide
  · intro s
    unfold decode_after_key
    rcases s.toList with _ | ⟨sc, rest⟩
    · exact Or.inl rfl
    · simp only [decodeChars]
      split
      · split
        · split
          · exact Or.inr ⟨_, _, rfl⟩
          · exact Or.inl rfl
        · exact Or.inl rfl
      · exact Or.inl rfl

/-! ### Bluesky login demotion (claim C3) -/

/-- C3 counterexample: with credentials present and a 401 response from
`createSession`, `configure` does not fail with `InvalidQuery`; the blanket
`except Exception` demotes the 401 to an `authentication_failed` warning and
returns an anonymous session. -/
theorem c3_http401_counterexample :
    configureBluesky (some ("alice.bsky.social", "app-pass")) (some (401, none)) =
      Except.ok { provider := "bluesky", auth_state := "anonymous",
                  warnings := ["authentication_failed: Invalid Bluesky credentials (use an app password, not your login password)."],
                  authHeader := none, baseUrl := "https://public.api.bsky.app" } := rfl

/-- C3 (amended): when credentials are present, every login failure —
including HTTP 401 on `createSession` — is demoted to an
`authentication_failed: ...` warning on the returned session, and the
provider proceeds in anonymous mode; `configure` never raises. -/
theorem c3_login_demotion_amended :
    ∀ (c : String × String) (resp : Option (Nat × Option String)) (e : PyError),
      loginAttempt resp = Except.error e →
      configureBluesky (some c) resp =
        Except.ok { provider := "bluesky", auth_state := "anonymous",
                    warnings := ["authentication_failed: " ++ pyErrStr e],
                    authHeader := none, baseUrl := "https://public.api.bsky.app" } := by
  intro c resp e h
  simp only [configureBluesky]
  rw [h]

/-- Witness for C3 (amended) at a 500 response. -/
theorem c3_login_demotion_amended_witness :
    configureBluesky (some ("alice.bsky.social", "app-pass")) (some (500, none)) =
      Except.ok { provider := "bluesky", auth_state := "anonymous",
                  warnings := ["authentication_failed: " ++ pyErrStr (PyError.httpStatusError 500)],
                  authHeader := none, baseUrl := "https://public.api.bsky.app" } :=
  c3_login_demotion_amended ("alice.bsky.social", "app-pass") (some (500, none))
    (PyError.httpStatusError 500) rfl

/-! ### Stored Bluesky metrics (claim C4) -/

/-- C4 counterexample: a payload with `likeCount = -3` and no `replyCount`
yields a stored metrics document whose `like_count` is negative and whose
`reply_count` key is present with value `null` (not omitted). -/
theorem c4_metrics_counterexample :
    List.lookup ("like_count")
        (storedMetrics ⟨PyVal.pyint (-3), PyVal.pynone, PyVal.pyint 2⟩) = some (JField.num (-3))
    ∧ List.lookup ("reply_count")
        (storedMetrics ⟨PyVal.pyint (-3), PyVal.pynone, PyVal.pyint 2⟩) = some JField.null
    ∧ (-3 : Int) < 0 := by
  refine ⟨rfl, rfl, by norm_num⟩

/-- C4 (amended): the stored metrics document always contains every canonical
`Metrics` key; `like_count`, `reply_count` and `repost_count` hold the payload
value coerced through `int()` when coercible — negative values included — and
`null` when the counter is absent or not coercible.  Absent counters are
stored as `null`, not omitted. -/
theorem c4_metrics_amended :
    (∀ p : BskyCounts,
      List.lookup ("like_count") (storedMetrics p) = some (jOf (as_int p.likeCount))
      ∧ List.lookup ("reply_count") (storedMetrics p) = some (jOf (as_int p.replyCount))
      ∧ List.lookup ("repost_count") (storedMetrics p) = some (jOf (as_int p.repostCount))
      ∧ List.lookup ("quote_count") (storedMetrics p) = some JField.null
      ∧ List.lookup ("view_count") (storedMetrics p) = some JField.null
      ∧ List.lookup ("bookmark_count") (storedMetrics p) = some JField.null
      ∧ List.lookup ("score") (storedMetrics p) = some JField.null
      ∧ List.lookup ("extra") (storedMetrics p) = some JField.null)
    ∧ (∀ n : Int, as_int (PyVal.pyint n) = some n)
    ∧ as_int PyVal.pynone = none := by
  refine ⟨?_, fun n => rfl, rfl⟩
  intro p
  exact ⟨rfl, rfl, rfl, rfl, rfl, rfl, rfl, rfl⟩

/-! ### Requested page limit (claim C6) -/

/-- C6 counterexample: for `limit = 0` the page size requested from the
remote endpoint is the fallback 10, not the value 1 demanded by a
minimum-1 clamp of `min(limit, 100)`. -/
theorem c6_page_limit_counterexample :
    requestedPageLimit 0 = 10
    ∧ max 1 (min (0 : Int) 100) = 1
    ∧ ¬ requestedPageLimit 0 = max 1 (min (0 : Int) 100) := by
  refine ⟨rfl, by norm_num, by norm_num [requestedPageLimit]⟩

/-- C6 (amended): for every `limit ≥ 1` the requested page size equals
`min(limit, 100)` and lies in `[1, 100]`; a zero (falsy) limit falls back to
the default 10; negative limits pass through without a lower clamp. -/
theorem c6_page_limit_amended :
    (∀ limit : Int, 1 ≤ limit →
        requestedPageLimit limit = min limit 100
        ∧ 1 ≤ requestedPageLimit limit ∧ requestedPageLimit limit ≤ 100)
    ∧ requestedPageLimit 0 = 10
    ∧ (∀ limit : Int, limit < 0 → requestedPageLimit limit = limit) := by
  refine ⟨?_, rfl, ?_⟩
  · intro l hl
    unfold requestedPageLimit
    rw [if_neg (by omega : ¬ l = 0)]
    refine ⟨rfl, ?_, ?_⟩ <;> omega
  · intro l hl
    unfold requestedPageLimit
    rw [if_neg (by omega : ¬ l = 0)]
    omega

/-- Witness for C6 (amended) at `limit = 7` and `limit = -5`. -/
theorem c6_page_limit_amended_witness :
    (requestedPageLimit 7 = min (7 : Int) 100
      ∧ 1 ≤ requestedPageLimit 7 ∧ requestedPageLimit 7 ≤ 100)
    ∧ requestedPageLimit (-5) = -5 :=
  ⟨c6_page_limit_amended.1 7 (by norm_num), c6_page_limit_amended.2.2 (-5) (by norm_num)⟩

/-! ### Collect loop lemmas -/

theorem collectLoop_fuel_zero (f : Nat → Except PErrK PBatch) (sinceDt untilDt : Option Int)
    (remaining : Nat) (st : LoopState) :
    collectLoop f sinceDt untilDt 0 remaining st = Except.ok st := by
  cases remaining with
  | zero => rfl
  | succ n => rfl

theorem collectLoop_succ (f : Nat → Except PErrK PBatch) (sinceDt untilDt : Option Int)
    (fuel' remaining : Nat) (st : LoopState) :
    collectLoop f sinceDt untilDt (fuel' + 1) remaining st =
      if remaining = 0 then Except.ok st
      else
        match f st.calls with
        | Except.error e => Except.error (e, { st with calls := st.calls + 1 })
        | Except.ok batch =>
          if (stepState sinceDt untilDt { st with calls := st.calls + 1 } batch).cursorTok = none
              ∨ batch.items = [] ∨ remaining - batch.items.length = 0 then
            Except.ok (stepState sinceDt untilDt { st with calls := st.calls + 1 } batch)
          else
            collectLoop f sinceDt untilDt fuel' (remaining - batch.items.length)
              (stepState sinceDt untilDt { st with calls := st.calls + 1 } batch) := by
  cases remaining with
  | zero => rfl
  | succ n => rfl

theorem queued_conflicts_split (sinceDt untilDt : Option Int) (snap : List String) :
    ∀ items : List PItem,
      (queuedItems sinceDt untilDt snap items).length
        + conflictCount sinceDt untilDt snap items
        = iwCount sinceDt untilDt items := by
  intro items
  induction items with
  | nil => rfl
  | cons it t ih =>
    unfold queuedItems conflictCount iwCount at *
    by_cases hw : inWindow sinceDt untilDt it = true
    · by_cases hm : it.external_id ∈ snap
      · simp [List.filter_cons, hw, hm] at ih ⊢
        omega
      · simp [List.filter_cons, hw, hm] at ih ⊢
        omega
    · simp [List.filter_cons, hw] at ih ⊢
      omega

theorem stepState_calls (sinceDt untilDt : Option Int) (st : LoopState) (batch : PBatch) :
    (stepState sinceDt untilDt st batch).calls = st.calls := rfl

theorem stepState_flag_mono (sinceDt untilDt : Option Int) (st : LoopState) (batch : PBatch)
    (h : st.reachedUntil = true) :
    (stepState sinceDt untilDt st batch).reachedUntil = true := by
  simp [stepState, ruUpdate, h]

theorem stepState_loopInv (f : Nat → Except PErrK PBatch) (sinceDt untilDt : Option Int)
    (store0 : List String) (st : LoopState) (batch : PBatch)
    (hok : f st.calls = Except.ok batch)
    (hinv : loopInv f sinceDt untilDt store0 st) :
    loopInv f sinceDt untilDt store0
      (stepState sinceDt untilDt { st with calls := st.calls + 1 } batch) := by
  obtain ⟨h1, h2, h3⟩ := hinv
  refine ⟨?_, ?_, ?_⟩
  · show (st.insertedTotal + (queuedItems sinceDt untilDt st.store batch.items).length)
        + (st.conflictsTotal + conflictCount sinceDt untilDt st.store batch.items)
        = iwSum f sinceDt untilDt (st.calls + 1)
    simp only [iwSum, hok]
    have hsplit := queued_conflicts_split sinceDt untilDt st.store batch.items
    omega
  · show st.store ++ (queuedItems sinceDt untilDt st.store batch.items).map PItem.external_id
        = storeAcc f sinceDt untilDt store0 (st.calls + 1)
    simp only [storeAcc, hok]
    rw [← h2]
    rfl
  · show (if cursorTruthy batch.next_cursor then batch.next_cursor else st.lastCursor)
        = lastSeen f (st.calls + 1)
    simp only [lastSeen, hok]
    rw [← h3]

/-- Master specification of the paging loop: starting from a state satisfying
the invariant, a normal exit preserves the invariant, never decreases the
call counter, only consumes successful calls, and never clears the boundary
flag; an error exit preserves the invariant, and the escaped error is exactly
the response of the last (failed) call. -/
theorem collectLoop_spec (f : Nat → Except PErrK PBatch) (sinceDt untilDt : Option Int)
    (store0 : List String) :
    ∀ (fuel remaining : Nat) (st : LoopState), loopInv f sinceDt untilDt store0 st →
      (∀ st', collectLoop f sinceDt untilDt fuel remaining st = Except.ok st' →
        loopInv f sinceDt untilDt store0 st'
        ∧ st.calls ≤ st'.calls
        ∧ (∀ k, st.calls ≤ k → k < st'.calls → okAt f k)
        ∧ (st.reachedUntil = true → st'.reachedUntil = true))
      ∧ (∀ e st', collectLoop f sinceDt untilDt fuel remaining st = Except.error (e, st') →
        loopInv f sinceDt untilDt store0 st'
        ∧ st.calls < st'.calls
        ∧ f (st'.calls - 1) = Except.error e
        ∧ (∀ k, st.calls ≤ k → k < st'.calls - 1 → okAt f k)) := by
  intro fuel
  induction fuel with
  | zero =>
    intro remaining st hinv
    constructor
    · intro st' h
      rw [collectLoop_fuel_zero] at h
      have hst : st = st' := Except.ok.inj h
      subst hst
      exact ⟨hinv, Nat.le_refl _, fun k hk1 hk2 => absurd hk2 (by omega), fun hh => hh⟩
    · intro e st' h
      rw [collectLoop_fuel_zero] at h
      exact absurd h (by simp)
  | succ fuel' ih =>
    intro remaining st hinv
    constructor
    · intro st' h
      rw [collectLoop_succ] at h
      by_cases hr : remaining = 0
      · rw [if_pos hr] at h
        have hst : st = st' := Except.ok.inj h
        subst hst
        exact ⟨hinv, Nat.le_refl _, fun k hk1 hk2 => absurd hk2 (by omega), fun hh => hh⟩
      · rw [if_neg hr] at h
        split at h
        · exact absurd h (by simp)
        · rename_i batch hf
          have hinv1 := stepState_loopInv f sinceDt untilDt store0 st batch hf hinv
          by_cases hc :
              (stepState sinceDt untilDt { st with calls := st.calls + 1 } batch).cursorTok = none
              ∨ batch.items = [] ∨ remaining - batch.items.length = 0
          · rw [if_pos hc] at h
            have hst : stepState sinceDt untilDt { st with calls := st.calls + 1 } batch = st' :=
              Except.ok.inj h
            have hc1 : (stepState sinceDt untilDt { st with calls := st.calls + 1 } batch).calls
                = st.calls + 1 := rfl
            subst hst
            refine ⟨hinv1, by omega, ?_, ?_⟩
            · intro k hk1 hk2
              rw [hc1] at hk2
              have hk : k = st.calls := by omega
              subst hk
              exact ⟨batch, hf⟩
            · intro hh
              exact stepState_flag_mono sinceDt untilDt _ batch (by simpa using hh)
          · rw [if_neg hc] at h
            have hrec := (ih (remaining - batch.items.length)
              (stepState sinceDt untilDt { st with calls := st.calls + 1 } batch) hinv1).1 st' h
            obtain ⟨hi, hle, hrange, hflag⟩ := hrec
            have hcalls1 :
                (stepState sinceDt untilDt { st with calls := st.calls + 1 } batch).calls
                  = st.calls + 1 := rfl
            rw [hcalls1] at hle hrange
            refine ⟨hi, by omega, ?_, ?_⟩
            · intro k hk1 hk2
              by_cases hke : k = st.calls
              · subst hke
                exact ⟨batch, hf⟩
              · exact hrange k (by omega) hk2
            · intro hh
              exact hflag (stepState_flag_mono sinceDt untilDt _ batch (by simpa using hh))
    · intro e st' h
      rw [collectLoop_succ] at h
      by_cases hr : remaining = 0
      · rw [if_pos hr] at h
        exact absurd h (by simp)
      · rw [if_neg hr] at h
        split at h
        · rename_i e2 hf
          have hp : (e2, { st with calls := st.calls + 1 }) = (e, st') := Except.error.inj h
          have he : e2 = e := congrArg Prod.fst hp
          have hs : ({ st with calls := st.calls + 1 } : LoopState) = st' :=
            congrArg Prod.snd hp
          subst hs
          refine ⟨⟨?_, ?_, ?_⟩, ?_, ?_, ?_⟩
          · show st.insertedTotal + st.conflictsTotal = iwSum f sinceDt untilDt (st.calls + 1)
            simp only [iwSum, hf]
            have h1 := hinv.1
            omega
          · show st.store = storeAcc f sinceDt untilDt store0 (st.calls + 1)
            simp only [storeAcc, hf]
            exact hinv.2.1
          · show st.lastCursor = lastSeen f (st.calls + 1)
            simp only [lastSeen, hf]
            exact hinv.2.2
          · show st.calls < st.calls + 1
            omega
          · show f (st.calls + 1 - 1) = Except.error e
            rw [← he]
            simpa using hf
          · intro k hk1 hk2
            have hk2b : k < st.calls + 1 - 1 := hk2
            exact absurd hk1 (by omega)
        · rename_i batch hf
          have hinv1 := stepState_loopInv f sinceDt untilDt store0 st batch hf hinv
          by_cases hc :
              (stepState sinceDt untilDt { st with calls := st.calls + 1 } batch).cursorTok = none
              ∨ batch.items = [] ∨ remaining - batch.items.length = 0
          · rw [if_pos hc] at h
            exact absurd h (by simp)
          · rw [if_neg hc] at h
            have hrec := (ih (remaining - batch.items.length)
              (stepState sinceDt untilDt { st with calls := st.calls + 1 } batch) hinv1).2 e st' h
            obtain ⟨hi, hlt, herr, hrange⟩ := hrec
            have hcalls1 :
                (stepState sinceDt untilDt { st with calls := st.calls + 1 } batch).calls
                  = st.calls + 1 := rfl
            rw [hcalls1] at hlt hrange
            refine ⟨hi, by omega, herr, ?_⟩
            intro k hk1 hk2
            by_cases hke : k = st.calls
            · subst hke
              exact ⟨batch, hf⟩
            · exact hrange k (by omega) hk2

theorem loopInv_init (f : Nat → Except PErrK PBatch) (sinceDt untilDt : Option Int)
    (store0 : List String) :
    loopInv f sinceDt untilDt store0 (initState store0) :=
  ⟨rfl, rfl, rfl⟩

theorem minCreated_lt (sd : Int) :
    ∀ items : List PItem, items ≠ [] → (∀ it ∈ items, it.created_at < sd) →
      ∃ m, minCreated items = some m ∧ m < sd := by
  intro items
  induction items with
  | nil => intro h; exact absurd rfl h
  | cons it t ih =>
    intro _ hall
    by_cases ht : t = []
    · subst ht
      exact ⟨it.created_at, rfl, hall it (List.mem_cons_self it [])⟩
    · obtain ⟨m, hm1, hm2⟩ := ih ht (fun x hx => hall x (List.mem_cons_of_mem _ hx))
      refine ⟨min it.created_at m, ?_, ?_⟩
      · show (match minCreated t with
          | none => some it.created_at
          | some m => some (min it.created_at m)) = some (min it.created_at m)
        rw [hm1]
      · have := hall it (List.mem_cons_self it t)
        omega

theorem ruUpdate_true (sd : Int) (flag : Bool) (b : PBatch) (hne : b.items ≠ [])
    (hall : ∀ it ∈ b.items, it.created_at < sd) :
    ruUpdate (some sd) flag b = true := by
  obtain ⟨m, hm1, hm2⟩ := minCreated_lt sd b.items hne hall
  simp [ruUpdate, hm1, hm2]

/-! ### Claims about collect (C7, C8, C9, C10, C1) -/

/-- C7: for every successful collect run, the reported `inserted + conflicts`
equals the number of items the provider returned across all fetched batches
whose `created_at` lies within the requested window (items outside the window
are counted in neither), and every fetched batch of the run succeeded. -/
theorem c7_inserted_conflicts_window :
    ∀ (f : Nat → Except PErrK PBatch) (sinceDt untilDt : Option Int) (limitOpt : Option Nat)
      (w store0 : List String) (prev : Option (Option String)) (rep : Report),
      (collectRun f sinceDt untilDt limitOpt w store0 prev).result = Except.ok rep →
      rep.inserted + rep.conflicts
          = iwSum f sinceDt untilDt (collectRun f sinceDt untilDt limitOpt w store0 prev).fetchCalls
      ∧ (∀ k, k < (collectRun f sinceDt untilDt limitOpt w store0 prev).fetchCalls → okAt f k) := by
  intro f s u lo w store0 prev rep h
  unfold collectRun at h ⊢
  cases hl : collectLoop f s u (remainingInit lo) (remainingInit lo) (initState store0) with
  | ok st =>
    simp only [hl] at h ⊢
    have hspec := (collectLoop_spec f s u store0 (remainingInit lo) (remainingInit lo)
      (initState store0) (loopInv_init f s u store0)).1 st hl
    obtain ⟨⟨h1, h2, h3⟩, hle, hrange, hflag⟩ := hspec
    have hrep :
        ({ inserted := st.insertedTotal, conflicts := st.conflictsTotal,
           reached_until := st.reachedUntil, last_cursor := st.lastCursor,
           warnings := [] } : Report) = rep := Except.ok.inj h
    subst hrep
    exact ⟨h1, fun k hk => hrange k (Nat.zero_le k) hk⟩
  | error p =>
    obtain ⟨e1, st1⟩ := p
    simp only [hl] at h
    exact absurd h (by simp)

/-- C8: whenever a provider error escapes the paging loop, the job is closed
as failed with `finished_at` set, the very error raised by the failing
`fetch_since` call is re-raised unchanged, and the post table equals the
table accumulated by the pages committed before the failure. -/
theorem c8_failure_path :
    ∀ (f : Nat → Except PErrK PBatch) (sinceDt untilDt : Option Int) (limitOpt : Option Nat)
      (w store0 : List String) (prev : Option (Option String)) (e : PErrK),
      (collectRun f sinceDt untilDt limitOpt w store0 prev).result = Except.error e →
      (collectRun f sinceDt untilDt limitOpt w store0 prev).job.status = "failed"
      ∧ (collectRun f sinceDt untilDt limitOpt w store0 prev).job.finishedSet = true
      ∧ 1 ≤ (collectRun f sinceDt untilDt limitOpt w store0 prev).fetchCalls
      ∧ f ((collectRun f sinceDt untilDt limitOpt w store0 prev).fetchCalls - 1) = Except.error e
      ∧ (collectRun f sinceDt untilDt limitOpt w store0 prev).store
          = storeAcc f sinceDt untilDt store0
              ((collectRun f sinceDt untilDt limitOpt w store0 prev).fetchCalls - 1)
      ∧ (∀ k, k < (collectRun f sinceDt untilDt limitOpt w store0 prev).fetchCalls - 1 →
          okAt f k) := by
  intro f s u lo w store0 prev e h
  unfold collectRun at h ⊢
  cases hl : collectLoop f s u (remainingInit lo) (remainingInit lo) (initState store0) with
  | ok st =>
    simp only [hl] at h
    exact absurd h (by simp)
  | error p =>
    obtain ⟨e1, st1⟩ := p
    simp only [hl] at h ⊢
    have he : e1 = e := Except.error.inj h
    subst he
    have hspec := (collectLoop_spec f s u store0 (remainingInit lo) (remainingInit lo)
      (initState store0) (loopInv_init f s u store0)).2 e1 st1 hl
    obtain ⟨⟨h1, h2, h3⟩, hlt, herr, hrange⟩ := hspec
    obtain ⟨m, hm⟩ : ∃ m, st1.calls = m + 1 := ⟨st1.calls - 1, by omega⟩
    rw [hm] at herr h2 ⊢
    simp only [Nat.add_sub_cancel] at herr ⊢
    refine ⟨by trivial, by trivial, by omega, herr, ?_, ?_⟩
    · rw [h2]
      simp only [storeAcc, herr]
    · intro k hk
      exact hrange k (Nat.zero_le k) (by omega)

/-- C9 (amended): after every successful collect run, the Cursor row position
equals the last truthy (non-null, non-empty) `next_cursor` observed during
the run; when none was observed, a previously stored position is left
unchanged.  (Empty-string cursors are treated like null by the source, which
tests `batch.next_cursor` for truthiness.) -/
theorem c9_cursor_row_amended :
    ∀ (f : Nat → Except PErrK PBatch) (sinceDt untilDt : Option Int) (limitOpt : Option Nat)
      (w store0 : List String) (prev : Option (Option String)) (rep : Report),
      (collectRun f sinceDt untilDt limitOpt w store0 prev).result = Except.ok rep →
      (∀ c, lastSeen f (collectRun f sinceDt untilDt limitOpt w store0 prev).fetchCalls = some c →
        (collectRun f sinceDt untilDt limitOpt w store0 prev).cursorRow = some (some c))
      ∧ (lastSeen f (collectRun f sinceDt untilDt limitOpt w store0 prev).fetchCalls = none →
        ∀ p, prev = some p →
          (collectRun f sinceDt untilDt limitOpt w store0 prev).cursorRow = some p) := by
  intro f s u lo w store0 prev rep h
  unfold collectRun at h ⊢
  cases hl : collectLoop f s u (remainingInit lo) (remainingInit lo) (initState store0) with
  | ok st =>
    simp only [hl] at h ⊢
    have hspec := (collectLoop_spec f s u store0 (remainingInit lo) (remainingInit lo)
      (initState store0) (loopInv_init f s u store0)).1 st hl
    obtain ⟨⟨h1, h2, h3⟩, hle, hrange, hflag⟩ := hspec
    constructor
    · intro c hc
      rw [← h3] at hc
      rw [hc]
    · intro hc p hp
      rw [← h3] at hc
      rw [hc, hp]
  | error p =>
    obtain ⟨e1, st1⟩ := p
    simp only [hl] at h
    exact absurd h (by simp)

/-- C10: for every successful collect call the warnings list of the returned
report is empty, regardless of the warnings carried by the provider session
built during configure; session warnings are never propagated. -/
theorem c10_report_warnings_empty :
    ∀ (f : Nat → Except PErrK PBatch) (sinceDt untilDt : Option Int) (limitOpt : Option Nat)
      (sessionWarnings store0 : List String) (prev : Option (Option String)) (rep : Report),
      (collectRun f sinceDt untilDt limitOpt sessionWarnings store0 prev).result = Except.ok rep →
      rep.warnings = [] := by
  intro f s u lo w store0 prev rep h
  unfold collectRun at h
  cases hl : collectLoop f s u (remainingInit lo) (remainingInit lo) (initState store0) with
  | ok st =>
    simp only [hl] at h
    have hrep :
        ({ inserted := st.insertedTotal, conflicts := st.conflictsTotal,
           reached_until := st.reachedUntil, last_cursor := st.lastCursor,
           warnings := [] } : Report) = rep := Except.ok.inj h
    rw [← hrep]
  | error p =>
    obtain ⟨e1, st1⟩ := p
    simp only [hl] at h
    exact absurd h (by simp)

/-- One loop iteration that hits the break condition returns the stepped
state. -/
theorem collectLoop_step_break (f : Nat → Except PErrK PBatch) (sinceDt untilDt : Option Int)
    (fuel' remaining : Nat) (st : LoopState) (batch : PBatch)
    (hr : ¬ remaining = 0) (hf : f st.calls = Except.ok batch)
    (hb : (stepState sinceDt untilDt { st with calls := st.calls + 1 } batch).cursorTok = none
        ∨ batch.items = [] ∨ remaining - batch.items.length = 0) :
    collectLoop f sinceDt untilDt (fuel' + 1) remaining st
      = Except.ok (stepState sinceDt untilDt { st with calls := st.calls + 1 } batch) := by
  rw [collectLoop_succ, if_neg hr, hf]
  show (if (stepState sinceDt untilDt { st with calls := st.calls + 1 } batch).cursorTok = none
        ∨ batch.items = [] ∨ remaining - batch.items.length = 0 then
      Except.ok (stepState sinceDt untilDt { st with calls := st.calls + 1 } batch)
    else
      collectLoop f sinceDt untilDt fuel' (remaining - batch.items.length)
        (stepState sinceDt untilDt { st with calls := st.calls + 1 } batch))
    = Except.ok (stepState sinceDt untilDt { st with calls := st.calls + 1 } batch)
  rw [if_pos hb]

/-- One loop iteration that misses the break condition continues with the
stepped state. -/
theorem collectLoop_step_no_break (f : Nat → Except PErrK PBatch) (sinceDt untilDt : Option Int)
    (fuel' remaining : Nat) (st : LoopState) (batch : PBatch)
    (hr : ¬ remaining = 0) (hf : f st.calls = Except.ok batch)
    (hb : ¬ ((stepState sinceDt untilDt { st with calls := st.calls + 1 } batch).cursorTok = none
        ∨ batch.items = [] ∨ remaining - batch.items.length = 0)) :
    collectLoop f sinceDt untilDt (fuel' + 1) remaining st
      = collectLoop f sinceDt untilDt fuel' (remaining - batch.items.length)
          (stepState sinceDt untilDt { st with calls := st.calls + 1 } batch) := by
  rw [collectLoop_succ, if_neg hr, hf]
  show (if (stepState sinceDt untilDt { st with calls := st.calls + 1 } batch).cursorTok = none
        ∨ batch.items = [] ∨ remaining - batch.items.length = 0 then
      Except.ok (stepState sinceDt untilDt { st with calls := st.calls + 1 } batch)
    else
      collectLoop f sinceDt untilDt fuel' (remaining - batch.items.length)
        (stepState sinceDt untilDt { st with calls := st.calls + 1 } batch))
    = collectLoop f sinceDt untilDt fuel' (remaining - batch.items.length)
        (stepState sinceDt untilDt { st with calls := st.calls + 1 } batch)
  rw [if_neg hb]

/-- With fuel and budget left, the loop makes at least one further call and
keeps the boundary flag. -/
theorem collectLoop_one_more (f : Nat → Except PErrK PBatch) (sinceDt untilDt : Option Int)
    (store0 : List String) (fuel' remaining : Nat) (st : LoopState)
    (hinv : loopInv f sinceDt untilDt store0 st) (hr : ¬ remaining = 0) :
    (∀ st', collectLoop f sinceDt untilDt (fuel' + 1) remaining st = Except.ok st' →
        st.calls + 1 ≤ st'.calls ∧ (st.reachedUntil = true → st'.reachedUntil = true))
    ∧ (∀ e st', collectLoop f sinceDt untilDt (fuel' + 1) remaining st = Except.error (e, st') →
        st.calls + 1 ≤ st'.calls) := by
  constructor
  · intro st' h
    rw [collectLoop_succ, if_neg hr] at h
    split at h
    · exact absurd h (by simp)
    · rename_i batch hf
      have hc1 : (stepState sinceDt untilDt { st with calls := st.calls + 1 } batch).calls
          = st.calls + 1 := rfl
      by_cases hc :
          (stepState sinceDt untilDt { st with calls := st.calls + 1 } batch).cursorTok = none
          ∨ batch.items = [] ∨ remaining - batch.items.length = 0
      · rw [if_pos hc] at h
        have hst := Except.ok.inj h
        rw [← hst]
        refine ⟨by omega, ?_⟩
        intro hh
        exact stepState_flag_mono sinceDt untilDt _ batch (by simpa using hh)
      · rw [if_neg hc] at h
        have hinv1 := stepState_loopInv f sinceDt untilDt store0 st batch hf hinv
        have hspec := (collectLoop_spec f sinceDt untilDt store0 fuel'
          (remaining - batch.items.length)
          (stepState sinceDt untilDt { st with calls := st.calls + 1 } batch) hinv1).1 st' h
        obtain ⟨hi, hle, hrange, hflag⟩ := hspec
        rw [hc1] at hle
        refine ⟨hle, ?_⟩
        intro hh
        exact hflag (stepState_flag_mono sinceDt untilDt _ batch (by simpa using hh))
  · intro e st' h
    rw [collectLoop_succ, if_neg hr] at h
    split at h
    · rename_i e2 hf
      have hp := Except.error.inj h
      have hs : ({ st with calls := st.calls + 1 } : LoopState) = st' := congrArg Prod.snd hp
      rw [← hs]
    · rename_i batch hf
      have hc1 : (stepState sinceDt untilDt { st with calls := st.calls + 1 } batch).calls
          = st.calls + 1 := rfl
      by_cases hc :
          (stepState sinceDt untilDt { st with calls := st.calls + 1 } batch).cursorTok = none
          ∨ batch.items = [] ∨ remaining - batch.items.length = 0
      · rw [if_pos hc] at h
        exact absurd h (by simp)
      · rw [if_neg hc] at h
        have hinv1 := stepState_loopInv f sinceDt untilDt store0 st batch hf hinv
        have hspec := (collectLoop_spec f sinceDt untilDt store0 fuel'
          (remaining - batch.items.length)
          (stepState sinceDt untilDt { st with calls := st.calls + 1 } batch) hinv1).2 e st' h
        obtain ⟨hi, hlt, herr, hrange⟩ := hspec
        rw [hc1] at hlt
        omega

/-- Auxiliary fact for C1: when the first batch is nonempty with a truthy
cursor, fits the remaining budget strictly, and lies entirely before the
lower time bound, the loop performs at least a second fetch and the boundary
flag stays set. -/
theorem c1_loop_aux (f : Nat → Except PErrK PBatch) (sd : Int) (untilDt : Option Int)
    (store0 : List String) (m : Nat) (b0 : PBatch)
    (hf0 : f 0 = Except.ok b0) (hne : b0.items ≠ [])
    (htr : cursorTruthy b0.next_cursor = true)
    (hlen : b0.items.length < m + 1)
    (hall : ∀ it ∈ b0.items, it.created_at < sd) :
    (∀ st', collectLoop f (some sd) untilDt (m + 1) (m + 1) (initState store0) = Except.ok st' →
      2 ≤ st'.calls ∧ st'.reachedUntil = true)
    ∧ (∀ e st',
        collectLoop f (some sd) untilDt (m + 1) (m + 1) (initState store0)
          = Except.error (e, st') →
        2 ≤ st'.calls) := by
  have hf0' : f (initState store0).calls = Except.ok b0 := hf0
  have hlpos : 0 < b0.items.length := List.length_pos.mpr hne
  have hnc : ∃ cs : String, b0.next_cursor = some cs := by
    cases hb : b0.next_cursor with
    | none => rw [hb] at htr; exact absurd htr (by simp [cursorTruthy])
    | some cs => exact ⟨cs, rfl⟩
  obtain ⟨cs, hcs⟩ := hnc
  obtain ⟨m2, hm2⟩ : ∃ m2, m = m2 + 1 := ⟨m - 1, by omega⟩
  subst hm2
  have hstep1 := collectLoop_step_no_break f (some sd) untilDt (m2 + 1) (m2 + 1 + 1)
    (initState store0) b0 (by omega) hf0' (by
      push_neg
      refine ⟨?_, hne, by omega⟩
      show (if cursorTruthy b0.next_cursor then b0.next_cursor else none) ≠ none
      rw [if_pos htr, hcs]
      simp)
  have hinv1 := stepState_loopInv f (some sd) untilDt store0 (initState store0) b0 hf0'
    (loopInv_init f (some sd) untilDt store0)
  have hone := collectLoop_one_more f (some sd) untilDt store0 m2
    (m2 + 1 + 1 - b0.items.length) _ hinv1 (by omega)
  have hflagset :
      (stepState (some sd) untilDt
        { initState store0 with calls := (initState store0).calls + 1 } b0).reachedUntil
        = true := by
    show ruUpdate (some sd) (initState store0).reachedUntil b0 = true
    exact ruUpdate_true sd _ b0 hne hall
  have hcallsone :
      (stepState (some sd) untilDt
        { initState store0 with calls := (initState store0).calls + 1 } b0).calls = 1 := rfl
  constructor
  · intro st' h
    rw [hstep1] at h
    obtain ⟨hge, hfl⟩ := hone.1 st' h
    rw [hcallsone] at hge
    exact ⟨by omega, hfl hflagset⟩
  · intro e st' h
    rw [hstep1] at h
    have hge := hone.2 e st' h
    rw [hcallsone] at hge
    omega

/-- C1 (amended): the paging loop stops after the first page as soon as the
advanced cursor is null, the batch was empty, or the remaining budget is
exhausted; the `reached_until` flag is not part of the break condition: when
`since_utc` is later than every `created_at` of a nonempty first batch that
carries a truthy cursor and leaves budget, the flag is set and reported, but
the collector still performs a second `fetch_since` call. -/
theorem c1_termination_amended :
    (∀ (f : Nat → Except PErrK PBatch) (sinceDt untilDt : Option Int) (limitOpt : Option Nat)
        (w store0 : List String) (prev : Option (Option String)) (b0 : PBatch),
      f 0 = Except.ok b0 → 1 ≤ remainingInit limitOpt →
      (cursorTruthy b0.next_cursor = false ∨ b0.items = []
        ∨ remainingInit limitOpt ≤ b0.items.length) →
      (collectRun f sinceDt untilDt limitOpt w store0 prev).fetchCalls = 1)
    ∧ (∀ (f : Nat → Except PErrK PBatch) (sd : Int) (untilDt : Option Int) (limitOpt : Option Nat)
        (w store0 : List String) (prev : Option (Option String)) (b0 : PBatch),
      f 0 = Except.ok b0 → b0.items ≠ [] → cursorTruthy b0.next_cursor = true →
      b0.items.length < remainingInit limitOpt →
      (∀ it ∈ b0.items, it.created_at < sd) →
      2 ≤ (collectRun f (some sd) untilDt limitOpt w store0 prev).fetchCalls
      ∧ (∀ rep, (collectRun f (some sd) untilDt limitOpt w store0 prev).result = Except.ok rep →
          rep.reached_until = true)) := by
  constructor
  · intro f s u lo w store0 prev b0 hf0 hrem hbreak
    obtain ⟨m, hm⟩ : ∃ m, remainingInit lo = m + 1 := ⟨remainingInit lo - 1, by omega⟩
    have hf0' : f (initState store0).calls = Except.ok b0 := hf0
    have hloop := collectLoop_step_break f s u m (m + 1) (initState store0) b0
      (by omega) hf0' (by
        rcases hbreak with hb | hb | hb
        · left
          show (if cursorTruthy b0.next_cursor then b0.next_cursor else none) = none
          rw [if_neg (by simp [hb])]
        · exact Or.inr (Or.inl hb)
        · rw [hm] at hb
          exact Or.inr (Or.inr (by omega)))
    unfold collectRun
    rw [hm]
    simp only [hloop]
    rfl
  · intro f sd u lo w store0 prev b0 hf0 hne htr hlen hall
    obtain ⟨m, hm⟩ : ∃ m, remainingInit lo = m + 1 := ⟨remainingInit lo - 1, by omega⟩
    rw [hm] at hlen
    have aux := c1_loop_aux f sd u store0 m b0 hf0 hne htr hlen hall
    unfold collectRun
    rw [hm]
    cases hv : collectLoop f (some sd) u (m + 1) (m + 1) (initState store0) with
    | ok st' =>
      simp only [hv]
      obtain ⟨hcge, hflag⟩ := aux.1 st' hv
      refine ⟨hcge, ?_⟩
      intro rep hrep
      have hr := Except.ok.inj hrep
      rw [← hr]
      exact hflag
    | error p =>
      obtain ⟨e1, s1⟩ := p
      simp only [hv]
      refine ⟨aux.2 e1 s1 hv, ?_⟩
      intro rep hrep
      exact absurd hrep (by simp)

/-- C1 counterexample: a run whose lower time bound lies after every
`created_at` of the first batch sets the boundary flag, yet the collector
performs a second `fetch_since` call because the break condition of the
source tests only the cursor, the batch size and the budget. -/
theorem c1_termination_counterexample :
    (∀ it ∈ [({ external_id := "p1", created_at := 0 } : PItem)], it.created_at < (5 : Int))
    ∧ scriptOldFirstPage 0 =
        Except.ok { items := [{ external_id := "p1", created_at := 0 }],
                    next_cursor := some "c", reached_until := false }
    ∧ (collectRun scriptOldFirstPage (some 5) none (some 10) [] [] none).fetchCalls = 2
    ∧ (collectRun scriptOldFirstPage (some 5) none (some 10) [] [] none).result
        = Except.ok { inserted := 0, conflicts := 0, reached_until := true,
                      last_cursor := some "c", warnings := [] } := by
  refine ⟨by decide, rfl, rfl, rfl⟩

/-- Witness for C1 (amended): a cursor-less first page stops after one call;
an all-too-old first page with a live cursor triggers a second call. -/
theorem c1_termination_amended_witness :
    (collectRun scriptNoCursor none none (some 5) [] [] none).fetchCalls = 1
    ∧ 2 ≤ (collectRun scriptOldFirstPage (some 5) none (some 10) [] [] none).fetchCalls :=
  ⟨c1_termination_amended.1 scriptNoCursor none none (some 5) [] [] none
      { items := [{ external_id := "q1", created_at := 7 }], next_cursor := none,
        reached_until := false }
      rfl (by decide) (Or.inl rfl),
   (c1_termination_amended.2 scriptOldFirstPage 5 none (some 10) [] [] none
      { items := [{ external_id := "p1", created_at := 0 }], next_cursor := some "c",
        reached_until := false }
      rfl (by decide) (by decide) (by decide) (by decide)).1⟩

/-- Witness for C7 on a concrete two-page run with an intra-batch duplicate,
an out-of-window item and a cross-page conflict. -/
theorem c7_inserted_conflicts_window_witness :
    reportDupes.inserted + reportDupes.conflicts
      = iwSum scriptDupes (some 5) none
          (collectRun scriptDupes (some 5) none (some 10) [] [] none).fetchCalls :=
  (c7_inserted_conflicts_window scriptDupes (some 5) none (some 10) [] [] none reportDupes
    rfl).1

/-- Witness for C8 on a run whose second call is rate limited. -/
theorem c8_failure_path_witness :
    (collectRun scriptFailsSecond none none (some 10) [] [] none).job.status = "failed"
    ∧ (collectRun scriptFailsSecond none none (some 10) [] [] none).job.finishedSet = true
    ∧ 1 ≤ (collectRun scriptFailsSecond none none (some 10) [] [] none).fetchCalls
    ∧ scriptFailsSecond
        ((collectRun scriptFailsSecond none none (some 10) [] [] none).fetchCalls - 1)
        = Except.error PErrK.rateLimited
    ∧ (collectRun scriptFailsSecond none none (some 10) [] [] none).store
        = storeAcc scriptFailsSecond none none []
            ((collectRun scriptFailsSecond none none (some 10) [] [] none).fetchCalls - 1) := by
  have h := c8_failure_path scriptFailsSecond none none (some 10) [] [] none
    PErrK.rateLimited rfl
  exact ⟨h.1, h.2.1, h.2.2.1, h.2.2.2.1, h.2.2.2.2.1⟩

/-- C9 counterexample: a provider returning the non-null but empty-string
cursor `""` leaves the stored position unchanged, although an empty-string
`next_cursor` is a non-null cursor observed during the run. -/
theorem c9_empty_cursor_counterexample :
    scriptEmptyCursor 0 =
        Except.ok { items := [{ external_id := "z", created_at := 0 }],
                    next_cursor := some "", reached_until := false }
    ∧ (some "" : Option String) ≠ none
    ∧ (collectRun scriptEmptyCursor none none (some 5) [] [] (some (some "old"))).result
        = Except.ok { inserted := 1, conflicts := 0, reached_until := false,
                      last_cursor := none, warnings := [] }
    ∧ (collectRun scriptEmptyCursor none none (some 5) [] [] (some (some "old"))).cursorRow
        = some (some "old")
    ∧ some (some "old") ≠ some (some ("" : String)) := by
  refine ⟨rfl, by simp, rfl, rfl, by simp⟩

/-- Witness for C9 (amended) on the two-page run: the stored cursor equals
the last truthy cursor `"c1"`. -/
theorem c9_cursor_row_amended_witness :
    (collectRun scriptDupes (some 5) none (some 10) [] [] none).cursorRow
      = some (some "c1") :=
  (c9_cursor_row_amended scriptDupes (some 5) none (some 10) [] [] none reportDupes rfl).1
    "c1" rfl

/-- Witness for C10: even with a nonempty session warnings list the report
warnings are empty. -/
theorem c10_report_warnings_empty_witness :
    reportDupes.warnings = ([] : List String) :=
  c10_report_warnings_empty scriptDupes (some 5) none (some 10)
    ["authentication_failed: boom"] [] none reportDupes rfl

/-! ### Keyset pagination lemmas (claim C2) -/

theorem kLT_irrefl (a : Int × Nat) : ¬ kLT a a := by
  unfold kLT
  omega

theorem kLT_asymm {a b : Int × Nat} (h : kLT a b) : ¬ kLT b a := by
  unfold kLT at *
  omega

theorem kLT_trans {a b c : Int × Nat} (h1 : kLT a b) (h2 : kLT b c) : kLT a c := by
  unfold kLT at *
  omega

theorem getLast?_exists : ∀ (l : List PostRow), l ≠ [] → ∃ a, l.getLast? = some a := by
  intro l
  induction l with
  | nil => intro h; exact absurd rfl h
  | cons a t ih =>
    intro _
    cases t with
    | nil => exact ⟨a, rfl⟩
    | cons b t2 =>
      obtain ⟨c, hc⟩ := ih (by simp)
      exact ⟨c, by rw [List.getLast?_cons_cons]; exact hc⟩

theorem mem_of_getLast?_eq : ∀ (l : List PostRow) (a : PostRow), l.getLast? = some a → a ∈ l := by
  intro l
  induction l with
  | nil => intro a h; simp at h
  | cons b t ih =>
    intro a h
    cases t with
    | nil =>
      have : b = a := by simpa using h
      rw [this]
      exact List.mem_cons_self a []
    | cons c t2 =>
      rw [List.getLast?_cons_cons] at h
      exact List.mem_cons_of_mem b (ih a h)

/-- Filtering a strictly descending list below the key of the last element of
its `n`-prefix removes exactly that prefix. -/
theorem filter_keyLt_of_take :
    ∀ (s : List PostRow) (n : Nat) (r : PostRow), 1 ≤ n → List.Pairwise rowGT s →
      (s.take n).getLast? = some r →
      s.filter (fun x => decide (kLT (rkey x) (rkey r))) = s.drop n := by
  intro s
  induction s with
  | nil =>
    intro n r hn hp hl
    simp at hl
  | cons a t ih =>
    intro n r hn hp hl
    obtain ⟨hpa, hpt⟩ := List.pairwise_cons.mp hp
    cases n with
    | zero => exact absurd hn (by omega)
    | succ n1 =>
      cases n1 with
      | zero =>
        have hra : r = a := by
          rw [List.take_succ_cons, List.take_zero] at hl
          simpa using hl.symm
        subst hra
        rw [List.filter_cons, List.drop_succ_cons, List.drop_zero]
        rw [decide_eq_false (kLT_irrefl (rkey r))]
        simp only [Bool.false_eq_true, if_false]
        apply List.filter_eq_self.mpr
        intro x hx
        exact decide_eq_true (hpa x hx)
      | succ m =>
        by_cases ht : t = []
        · subst ht
          have hra : r = a := by
            have : ([a] : List PostRow).take (m + 2) = [a] := rfl
            rw [List.take_succ_cons] at hl
            simpa using hl.symm
          subst hra
          rw [List.filter_cons, decide_eq_false (kLT_irrefl (rkey r))]
          simp
        · have htt : t.take (m + 1) ≠ [] := by
            cases t with
            | nil => exact absurd rfl ht
            | cons b t2 => simp [List.take_succ_cons]
          obtain ⟨b, l2, hbt⟩ : ∃ b l2, t.take (m + 1) = b :: l2 := by
            cases hx : t.take (m + 1) with
            | nil => exact absurd hx htt
            | cons b l2 => exact ⟨b, l2, rfl⟩
          have hl2 : (t.take (m + 1)).getLast? = some r := by
            rw [List.take_succ_cons, hbt, List.getLast?_cons_cons] at hl
            rw [hbt]
            exact hl
          have hr_mem : r ∈ t :=
            List.take_subset (m + 1) t (mem_of_getLast?_eq _ r hl2)
          have hfa : decide (kLT (rkey a) (rkey r)) = false :=
            decide_eq_false (kLT_asymm (hpa r hr_mem))
          rw [List.filter_cons, hfa]
          simp only [Bool.false_eq_true, if_false, List.drop_succ_cons]
          exact ih (m + 1) r (by omega) hpt hl2

/-- Narrowing: filtering the base below a key that already lies below the
current keyset position agrees with filtering the current page set. -/
theorem filterAt_filter (base : List PostRow) (ak : Option (Int × Nat)) (k2 : Int × Nat)
    (h : ∀ x : PostRow, kLT (rkey x) k2 →
      (match ak with | none => True | some k => kLT (rkey x) k)) :
    (filterAt base ak).filter (fun x => decide (kLT (rkey x) k2))
      = base.filter (fun x => decide (kLT (rkey x) k2)) := by
  cases ak with
  | none => rfl
  | some k =>
    show (base.filter _).filter _ = _
    rw [List.filter_filter]
    apply List.filter_congr
    intro x _
    by_cases h2 : kLT (rkey x) k2
    · have h3 : kLT (rkey x) k := h x h2
      simp [h2, h3]
    · simp [h2]

/-- A page over at most `limit` remaining rows emits them all without a
token. -/
theorem pageOf_small (base : List PostRow) (limit : Nat) (ak : Option (Int × Nat))
    (hsl : (filterAt base ak).length ≤ limit) :
    pageOf base limit ak = (filterAt base ak, none) := by
  unfold pageOf
  have h1 : (filterAt base ak).take (limit + 1) = filterAt base ak :=
    List.take_of_length_le (by omega)
  rw [h1, List.take_of_length_le hsl]
  cases hgl : (filterAt base ak).getLast? with
  | none => rfl
  | some rl =>
    rw [decide_eq_false (by omega : ¬ limit < (filterAt base ak).length)]
    simp

/-- A page over more than `limit` remaining rows emits the `limit`-prefix and
tokens its last row. -/
theorem pageOf_big (base : List PostRow) (limit : Nat) (ak : Option (Int × Nat)) (r : PostRow)
    (hmore : limit < (filterAt base ak).length)
    (hr : ((filterAt base ak).take limit).getLast? = some r) :
    pageOf base limit ak = ((filterAt base ak).take limit, some (rkey r)) := by
  unfold pageOf
  have h1 : ((filterAt base ak).take (limit + 1)).take limit = (filterAt base ak).take limit := by
    rw [List.take_take]
    congr 1
    omega
  have h2 : limit < ((filterAt base ak).take (limit + 1)).length := by
    rw [List.length_take]
    omega
  rw [h1, hr, decide_eq_true h2]
  simp

/-- Chaining pages over a strictly descending base list with a positive page
size reproduces the remainder exactly, for any sufficient fuel. -/
theorem chainQuery_covers (base : List PostRow) (hb : List.Pairwise rowGT base) (limit : Nat)
    (hl : 1 ≤ limit) :
    ∀ (fuel : Nat) (ak : Option (Int × Nat)),
      (filterAt base ak).length ≤ fuel →
      chainQuery base limit ak fuel = filterAt base ak := by
  intro fuel
  induction fuel with
  | zero =>
    intro ak hlen
    have h0 : filterAt base ak = [] := by
      cases hx : filterAt base ak with
      | nil => rfl
      | cons a t => rw [hx] at hlen; simp at hlen
    rw [h0]
    rfl
  | succ fuel ih =>
    intro ak hlen
    have hps : List.Pairwise rowGT (filterAt base ak) := by
      cases ak with
      | none => exact hb
      | some k => exact List.Pairwise.sublist (List.filter_sublist base) hb
    by_cases hmore : limit < (filterAt base ak).length
    · have hne : filterAt base ak ≠ [] := by
        intro h
        rw [h] at hmore
        simp at hmore
      have htake_ne : (filterAt base ak).take limit ≠ [] := by
        rw [Ne, List.take_eq_nil_iff]
        push_neg
        exact ⟨by omega, hne⟩
      obtain ⟨r, hr⟩ := getLast?_exists _ htake_ne
      have hpage := pageOf_big base limit ak r hmore hr
      have hrmem : r ∈ filterAt base ak :=
        List.take_subset limit _ (mem_of_getLast?_eq _ r hr)
      have hnarrow : filterAt base (some (rkey r))
          = (filterAt base ak).filter (fun x => decide (kLT (rkey x) (rkey r))) := by
        show base.filter _ = _
        rw [filterAt_filter base ak (rkey r)]
        intro x hx
        cases ak with
        | none => trivial
        | some k =>
          show kLT (rkey x) k
          have hrk : kLT (rkey r) k := by
            have := (List.mem_filter.mp hrmem).2
            exact of_decide_eq_true this
          exact kLT_trans hx hrk
      have hdrop : (filterAt base ak).filter (fun x => decide (kLT (rkey x) (rkey r)))
          = (filterAt base ak).drop limit :=
        filter_keyLt_of_take (filterAt base ak) limit r hl hps hr
      have hlen2 : (filterAt base (some (rkey r))).length ≤ fuel := by
        rw [hnarrow, hdrop, List.length_drop]
        omega
      have hrec := ih (some (rkey r)) hlen2
      show (match (pageOf base limit ak).2 with
        | none => (pageOf base limit ak).1
        | some k => (pageOf base limit ak).1 ++ chainQuery base limit (some k) fuel)
        = filterAt base ak
      rw [hpage]
      show (filterAt base ak).take limit ++ chainQuery base limit (some (rkey r)) fuel
        = filterAt base ak
      rw [hrec, hnarrow, hdrop, List.take_append_drop]
    · have hpage := pageOf_small base limit ak (by omega)
      show (match (pageOf base limit ak).2 with
        | none => (pageOf base limit ak).1
        | some k => (pageOf base limit ak).1 ++ chainQuery base limit (some k) fuel)
        = filterAt base ak
      rw [hpage]

/-- The sorted filtered base of the posts query is strictly descending and a
permutation of the filtered table, provided row ids are unique. -/
theorem postsQuerySorted_strictDesc (store : List PostRow) (fl : PostFilters)
    (hid : (store.map PostRow.id).Nodup) :
    List.Pairwise rowGT (postsQuerySorted store fl)
    ∧ (postsQuerySorted store fl).Perm (store.filter (matchesFilters fl)) := by
  have hperm : (postsQuerySorted store fl).Perm (store.filter (matchesFilters fl)) :=
    List.perm_insertionSort byKeyDesc (store.filter (matchesFilters fl))
  refine ⟨?_, hperm⟩
  have hsorted : List.Pairwise byKeyDesc (postsQuerySorted store fl) :=
    List.sorted_insertionSort byKeyDesc (store.filter (matchesFilters fl))
  have hid2 : ((store.filter (matchesFilters fl)).map PostRow.id).Nodup :=
    List.Nodup.sublist ((List.filter_sublist store).map PostRow.id) hid
  have hid3 : ((postsQuerySorted store fl).map PostRow.id).Nodup :=
    ((hperm.map PostRow.id).nodup_iff).mpr hid2
  have hpne : List.Pairwise (fun a b : PostRow => a.id ≠ b.id) (postsQuerySorted store fl) :=
    (List.pairwise_map.mp hid3)
  have hand := hsorted.and hpne
  apply hand.imp
  intro a b hab
  obtain ⟨h1, h2⟩ := hab
  rcases h1 with h1 | h1
  · exact h1
  · exact absurd (congrArg Prod.snd h1).symm h2

/-- C2 counterexample: with `limit = 0` and a single matching row, the first
page emits nothing and carries no token although a matching row remains, so
chaining the pages omits the row and the token-iff clause fails. -/
theorem c2_zero_limit_counterexample :
    chainQuery (postsQuerySorted [rowOne] noFilters) 0 none
        (postsQuerySorted [rowOne] noFilters).length = []
    ∧ ([rowOne].filter (matchesFilters noFilters)).length = 1
    ∧ (pageOf (postsQuerySorted [rowOne] noFilters) 0 none).2 = none
    ∧ 0 < (filterAt (postsQuerySorted [rowOne] noFilters) none).length := by
  refine ⟨rfl, rfl, rfl, by decide⟩

/-- C2 (amended): for every store with unique row ids, every filter set and
every positive limit, chaining `query` pages through `next_after_key` yields
exactly the matching rows, once each, in `(created_at DESC, id DESC)` order;
each page fetches `limit + 1` rows past the decoded keyset position and its
token is set iff more matching rows remain. -/
theorem c2_keyset_pagination_amended :
    ∀ (store : List PostRow) (fl : PostFilters) (limit : Nat),
      (store.map PostRow.id).Nodup → 1 ≤ limit →
      chainQuery (postsQuerySorted store fl) limit none (postsQuerySorted store fl).length
        = postsQuerySorted store fl
      ∧ (postsQuerySorted store fl).Perm (store.filter (matchesFilters fl))
      ∧ List.Pairwise rowGT (postsQuerySorted store fl)
      ∧ (∀ ak, ((pageOf (postsQuerySorted store fl) limit ak).2).isSome
          = decide (limit < (filterAt (postsQuerySorted store fl) ak).length)) := by
  intro store fl limit hid hl
  obtain ⟨hdesc, hperm⟩ := postsQuerySorted_strictDesc store fl hid
  refine ⟨?_, hperm, hdesc, ?_⟩
  · exact chainQuery_covers (postsQuerySorted store fl) hdesc limit hl
      (postsQuerySorted store fl).length none (Nat.le_refl _)
  · intro ak
    by_cases hmore : limit < (filterAt (postsQuerySorted store fl) ak).length
    · have hne : (filterAt (postsQuerySorted store fl) ak).take limit ≠ [] := by
        rw [Ne, List.take_eq_nil_iff]
        push_neg
        refine ⟨by omega, ?_⟩
        intro h
        rw [h] at hmore
        simp at hmore
      obtain ⟨r, hr⟩ := getLast?_exists _ hne
      rw [pageOf_big _ limit ak r hmore hr, decide_eq_true hmore]
      rfl
    · rw [pageOf_small _ limit ak (by omega),
        decide_eq_false hmore]
      rfl

/-- Witness for C2 (amended) on a concrete two-row store with unit limit. -/
theorem c2_keyset_pagination_amended_witness :
    chainQuery (postsQuerySorted sampleStore noFilters) 1 none
        (postsQuerySorted sampleStore noFilters).length
      = postsQuerySorted sampleStore noFilters :=
  (c2_keyset_pagination_amended sampleStore noFilters 1 (by decide) (by decide)).1

end Sonec
